import Mathlib

/-!
Verification of the 2D overlay UI toolkit (dipy.viz.gui_2d and the
scifi-UI interactor example) against its natural-language specification.

The Python source is shallowly embedded: the TextBox2D text/caret/window
state machine becomes a record of naturals with explicit state-passing
operations (Python integer comparisons that can see negative values are
performed in ℤ), slider arithmetic is modelled over linearly ordered
fields (ℝ in the theorems, ℚ in executable witnesses), and the picking
based event dispatch of CustomInteractorStyle.on_left_button_pressed is
modelled as a function from pick results to the list of invocations it
performs.
-/

namespace DipyGui

/-! ## TextBox2D state machine (src/dipy/viz/gui_2d.py, class TextBox2D)

Fields mirror the attributes set in TextBox2D.__init__ that the editing
operations read and write: text, caret_pos, window_left, window_right,
width, height.  All of them are naturals: starting from the initial
editing state the Python code keeps every one of these integers
non-negative (each decrement is guarded or clamped at zero), so ℕ with
truncated subtraction is an exact model; comparisons that Python performs
on possibly-negative differences are carried out in ℤ below. -/

structure TextBoxState where
  text : List Char
  caret_pos : ℕ
  window_left : ℕ
  window_right : ℕ
  width : ℕ
  height : ℕ
  deriving Repr, DecidableEq

/-- TextBox2D.move_caret_right: increment, clamped to len(text). -/
def move_caret_right (s : TextBoxState) : TextBoxState :=
  { s with caret_pos :=
      if s.caret_pos + 1 > s.text.length then s.text.length else s.caret_pos + 1 }

/-- TextBox2D.move_caret_left: decrement, clamped at 0 (ℕ subtraction). -/
def move_caret_left (s : TextBoxState) : TextBoxState :=
  { s with caret_pos := s.caret_pos - 1 }

/-- TextBox2D.right_move_right: increment window_right if it is ≤ len(text). -/
def right_move_right (s : TextBoxState) : TextBoxState :=
  if s.window_right ≤ s.text.length then
    { s with window_right := s.window_right + 1 }
  else s

/-- TextBox2D.right_move_left: decrement window_right if it is > 0. -/
def right_move_left (s : TextBoxState) : TextBoxState :=
  if s.window_right > 0 then { s with window_right := s.window_right - 1 } else s

/-- TextBox2D.left_move_right: increment window_left if it is ≤ len(text). -/
def left_move_right (s : TextBoxState) : TextBoxState :=
  if s.window_left ≤ s.text.length then
    { s with window_left := s.window_left + 1 }
  else s

/-- TextBox2D.left_move_left: decrement window_left if it is > 0. -/
def left_move_left (s : TextBoxState) : TextBoxState :=
  if s.window_left > 0 then { s with window_left := s.window_left - 1 } else s

/-- The test `window_right - window_left == height * width - 1` as Python
evaluates it, i.e. over ℤ (both sides may be negative there). -/
def isWindowFull (s : TextBoxState) : Prop :=
  (s.window_right : ℤ) - (s.window_left : ℤ) = ((s.height * s.width : ℕ) : ℤ) - 1

instance (s : TextBoxState) : Decidable (isWindowFull s) := by
  unfold isWindowFull; infer_instance

/-- The body of TextBox2D.add_character after its two input guards: splice
the (already mapped) character at caret_pos, move the caret right, slide
window_left right first when the window is full, then slide window_right
right. -/
def insertCore (s : TextBoxState) (character : List Char) : TextBoxState :=
  let s1 : TextBoxState :=
    { s with text := s.text.take s.caret_pos ++ character ++ s.text.drop s.caret_pos }
  let s2 := move_caret_right s1
  let s3 := if isWindowFull s2 then left_move_right s2 else s2
  right_move_right s3

/-- TextBox2D.add_character: a multi-character input whose lowercase form is
not "space" is ignored; "space" is mapped to a blank; the character is
spliced at caret_pos, the caret moves right, and the window slides. -/
def add_character (s : TextBoxState) (character : List Char) : TextBoxState :=
  if character.length > 1 ∧ character.map Char.toLower ≠ "space".data then s
  else
    insertCore s
      (if character.map Char.toLower = "space".data then " ".data else character)

/-- The test `len(text) < height * width - 1` as Python evaluates it (ℤ). -/
def isShortText (s : TextBoxState) : Prop :=
  (s.text.length : ℤ) < ((s.height * s.width : ℕ) : ℤ) - 1

instance (s : TextBoxState) : Decidable (isShortText s) := by
  unfold isShortText; infer_instance

/-- TextBox2D.remove_character: no-op when caret_pos == 0; otherwise the
character before the caret is removed, the caret moves left, and the
window slides back. -/
def remove_character (s : TextBoxState) : TextBoxState :=
  if s.caret_pos = 0 then s
  else
    let s1 : TextBoxState :=
      { s with text := s.text.take (s.caret_pos - 1) ++ s.text.drop s.caret_pos }
    let s2 := move_caret_left s1
    let s3 := if isShortText s2 then right_move_left s2 else s2
    if isWindowFull s3 then
      if s3.window_left > 0 then right_move_left (left_move_left s3) else s3
    else s3

/-- The initial editing state: TextBox2D.__init__ sets window_left,
window_right and caret_pos to 0, and the first edit_mode call clears the
placeholder text and resets caret_pos to 0 (the window is untouched). -/
def initEditState (width height : ℕ) : TextBoxState :=
  ⟨[], 0, 0, 0, width, height⟩

/-- States reachable from the initial editing state by insert
(add_character) and deleteBackward (remove_character) calls.  Insert
inputs range over arbitrary nonempty strings: every key token delivered
by the event interface ("space", "Shift_L", single characters, ...) is a
nonempty string. -/
inductive Reach (width height : ℕ) : TextBoxState → Prop where
  | init : Reach width height (initEditState width height)
  | insert (s : TextBoxState) (c : List Char) :
      Reach width height s → c ≠ [] → Reach width height (add_character s c)
  | delete (s : TextBoxState) :
      Reach width height s → Reach width height (remove_character s)

/-- The body of the loop in TextBox2D.width_set_text, carrying the running
character index i: emit each character, and a newline after every
position whose 1-based index is a multiple of width. -/
def width_set_text_go (w : ℕ) : ℕ → List Char → List Char
  | _, [] => []
  | i, ch :: rest =>
    if (i + 1) % w = 0 then ch :: '\n' :: width_set_text_go w (i + 1) rest
    else ch :: width_set_text_go w (i + 1) rest

/-- Python str.rstrip("\x5cn"): remove all trailing newlines. -/
def rstrip_newlines (t : List Char) : List Char :=
  (t.reverse.dropWhile (fun c => c == '\n')).reverse

/-- TextBox2D.width_set_text: insert a newline after every width-th
character, then strip trailing newlines. -/
def width_set_text (s : TextBoxState) (text : List Char) : List Char :=
  rstrip_newlines (width_set_text_go s.width 0 text)

/-- TextBox2D.showable_text: optionally insert the caret marker at
caret_pos, then slice out [window_left, window_right] inclusive. -/
def showable_text (s : TextBoxState) (show_caret : Bool) : List Char :=
  ((if show_caret then
      s.text.take s.caret_pos ++ '_' :: s.text.drop s.caret_pos
    else s.text).drop s.window_left).take (s.window_right + 1 - s.window_left)

/-- TextBox2D.render_text: the message pushed to the text actor — the
showable text, replaced by the placeholder when it is empty, re-wrapped
by width_set_text. -/
def render_text (s : TextBoxState) (show_caret : Bool) : List Char :=
  let text := showable_text s show_caret
  let text := if text = [] then "Enter Text".data else text
  width_set_text s text

/-- Spec-side (claim C9 wording): the visible substring
text[windowLeft..windowRight], with a literal caret marker inserted at
caretPos when showCaret is true. -/
def visibleSpec (s : TextBoxState) (show_caret : Bool) : List Char :=
  ((if show_caret then
      s.text.take s.caret_pos ++ '_' :: s.text.drop s.caret_pos
    else s.text).drop s.window_left).take (s.window_right + 1 - s.window_left)

/-- Spec-side (claim C9 wording): split a text into lines of width
characters. -/
def chunksSpec (w : ℕ) (t : List Char) : List (List Char) :=
  if h : w = 0 ∨ t = [] then []
  else t.take w :: chunksSpec w (t.drop w)
termination_by t.length
decreasing_by
  simp only [List.length_drop]
  push_neg at h
  have h1 : 0 < w := Nat.pos_of_ne_zero h.1
  have h3 : 0 < t.length := List.length_pos.mpr h.2
  omega

/-- Spec-side: join lines with a line-break separator. -/
def joinLines : List (List Char) → List Char
  | [] => []
  | [l] => l
  | l :: ls => l ++ '\n' :: joinLines ls

/-- Spec-side (claim C9 wording): re-wrap a text by inserting a line break
after every width characters. -/
def wrapSpec (w : ℕ) (t : List Char) : List Char :=
  joinLines (chunksSpec w t)

/-- An insert input that add_character accepts (is not silently ignored):
a single character, or a token whose lowercase form is "space". -/
def acceptedInput (c : List Char) : Prop :=
  c.length = 1 ∨ c.map Char.toLower = "space".data

/-! ## LineSlider2DText (src/dipy/viz/gui_2d.py)

Slider coordinates are modelled over ℚ: the Python arithmetic here is
float subtraction, multiplication, division and comparison, which the
claims only ever exercise at exactly representable values. -/

structure LineSlider2DTextState where
  left_x_position : ℚ
  right_x_position : ℚ
  deriving Repr, DecidableEq

/-- LineSlider2DText.__init__: left/right bounds from center and length. -/
def mkLineSlider2DText (centerX length : ℚ) : LineSlider2DTextState :=
  ⟨centerX - length / 2, centerX + length / 2⟩

/-- LineSlider2DText.calculate_percentage, numeric part: the affine map of
the handle position followed by the two sequential clamps.  (The source
then converts the number to a string and appends "%"; the claims are
about the numeric value.) -/
def calculate_percentage (st : LineSlider2DTextState) (current_val : ℚ) : ℚ :=
  let percentage := (current_val - st.left_x_position) * 100
      / (st.right_x_position - st.left_x_position)
  let percentage := if percentage < 0 then 0 else percentage
  if percentage > 100 then 100 else percentage

/-- Spec-side (claim C6 wording): clamp(v, lo, hi). -/
def clampSpec (v lo hi : ℚ) : ℚ := max lo (min hi v)

/-! ## DiskSlider2D.get_poi / get_angle and DiskSlider2DText
(src/dipy/viz/gui_2d.py)

get_poi divides by math.sqrt(dx*dx + dy*dy); the square root value is
passed in as the parameter r (the theorems constrain 0 ≤ r and
r*r = dx*dx + dy*dy).  Python raises ZeroDivisionError when that root is
zero, so the embedding returns none exactly then.  The definition is
generic over a linearly ordered field so that witnesses can evaluate it
over ℚ while the theorems read it over ℝ. -/

def get_poi {K : Type} [LinearOrderedField K]
    (cx cy radius px py r : K) : Option (K × K) :=
  if r = 0 then none
  else
    let dx := px - cx
    let dy := py - cy
    let x1 := cx + radius * dx / r
    let x2 := cx - radius * dx / r
    let yy : K × K :=
      if x1 = x2 then (cy + radius, cy - radius)
      else (cy + dy / dx * (x1 - cx), cy + dy / dx * (x2 - cx))
    let d1 := (x1 - px) * (x1 - px) + (yy.1 - py) * (yy.1 - py)
    let d2 := (x2 - px) * (x2 - px) + (yy.2 - py) * (yy.2 - py)
    if d1 < d2 then some (x1, yy.1) else some (x2, yy.2)

/-- The normalization step of DiskSlider2D.get_angle: add 360 to a negative
raw angle (math.degrees(math.atan2(dy, dx)) is the raw angle; in the
theorems it appears as Complex.arg of ⟨dx, dy⟩ times 180/π). -/
def normalizeAngle {K : Type} [LinearOrderedField K] (raw : K) : K :=
  if raw < 0 then raw + 360 else raw

/-- Python int(): truncation toward zero. -/
def pyTrunc {K : Type} [LinearOrderedField K] [FloorRing K] (x : K) : ℤ :=
  if 0 ≤ x then ⌊x⌋ else -⌊-x⌋

/-- DiskSlider2DText.calculate_percentage: int((current_val/360)*100),
left-padded with "0" when the decimal string has a single character,
followed by "%". -/
def disk_calculate_percentage {K : Type} [LinearOrderedField K] [FloorRing K]
    (current_val : K) : String :=
  let percentage : ℤ := pyTrunc (current_val / 360 * 100)
  let s := toString percentage
  (if s.length = 1 then "0" ++ s else s) ++ "%"

/-- Spec-side (claim C8 wording): floor(angle/360*100), zero-padded to two
digits, followed by "%". -/
def diskPercentageSpec {K : Type} [LinearOrderedField K] [FloorRing K]
    (angle : K) : String :=
  let n : ℤ := ⌊angle / 360 * 100⌋
  (if n < 10 then "0" ++ toString n else toString n) ++ "%"

/-! ## Event routing
(src/doc/examples/scifi_ui_follower.py,
CustomInteractorStyle.on_left_button_pressed)

Actors are identified by opaque ids; an invocation list records, in
order, the calls the handler makes: InvokeEvent on an actor (which runs
exactly that actor's registered callbacks) and the trackball camera
controller's OnLeftButtonDown. -/

inductive Invocation where
  | invokeActor (a : ℕ)
  | cameraLeftDown
  deriving Repr, DecidableEq

structure UIItem where
  actor : ℕ
  deriving Repr, DecidableEq

/-- The pick result: GetPath (reduced to the view prop of its last node),
GetActor2D, GetProp3D. -/
structure PickResult where
  path : Option ℕ
  actor2d : Option ℕ
  prop3d : Option ℕ
  deriving Repr, DecidableEq

/-- CustomInteractorStyle.get_ui_item: linear scan of the renderer's
ui_list comparing actor identity. -/
def get_ui_item (uiList : List UIItem) (selected : ℕ) : Option UIItem :=
  uiList.find? (fun u => u.actor == selected)

/-- CustomInteractorStyle.on_left_button_pressed: pick; if a path is hit,
forward the event to its last prop; otherwise try the 2D actor, then the
3D prop, recording the chosen element; in every case the trackball camera
controller's OnLeftButtonDown is invoked at the end. -/
def on_left_button_pressed (uiList : List UIItem) (chosen : Option UIItem)
    (pick : PickResult) : List Invocation × Option UIItem :=
  match pick.path with
  | some prop => ([.invokeActor prop, .cameraLeftDown], chosen)
  | none =>
    match pick.actor2d with
    | some a => ([.invokeActor a, .cameraLeftDown], get_ui_item uiList a)
    | none =>
      match pick.prop3d with
      | some a3 => ([.invokeActor a3, .cameraLeftDown], get_ui_item uiList a3)
      | none => ([.cameraLeftDown], chosen)

/-- The inductive invariant of the reachable editing states:
the window left edge never passes the caret, the caret stays inside the
buffer, the window right edge is pinned to `min len (left + capacity)`
where the capacity of the visible window is `height*width - 1`, and the
window only scrolls (left edge > 0) when the buffer fills it. -/
def INV (s : TextBoxState) : Prop :=
  s.window_left ≤ s.caret_pos ∧
  s.caret_pos ≤ s.text.length ∧
  s.window_right = min s.text.length (s.window_left + (s.height * s.width - 1)) ∧
  (0 < s.window_left → s.window_left + (s.height * s.width - 1) ≤ s.text.length)

lemma inv_init (width height : ℕ) : INV (initEditState width height) := by
  simp [INV, initEditState]

@[simp] lemma move_caret_right_width (s : TextBoxState) :
    (move_caret_right s).width = s.width := rfl

@[simp] lemma move_caret_right_height (s : TextBoxState) :
    (move_caret_right s).height = s.height := rfl

@[simp] lemma move_caret_left_width (s : TextBoxState) :
    (move_caret_left s).width = s.width := rfl

@[simp] lemma move_caret_left_height (s : TextBoxState) :
    (move_caret_left s).height = s.height := rfl

@[simp] lemma right_move_right_width (s : TextBoxState) :
    (right_move_right s).width = s.width := by
  unfold right_move_right; split <;> rfl

@[simp] lemma right_move_right_height (s : TextBoxState) :
    (right_move_right s).height = s.height := by
  unfold right_move_right; split <;> rfl

@[simp] lemma right_move_left_width (s : TextBoxState) :
    (right_move_left s).width = s.width := by
  unfold right_move_left; split <;> rfl

@[simp] lemma right_move_left_height (s : TextBoxState) :
    (right_move_left s).height = s.height := by
  unfold right_move_left; split <;> rfl

@[simp] lemma left_move_right_width (s : TextBoxState) :
    (left_move_right s).width = s.width := by
  unfold left_move_right; split <;> rfl

@[simp] lemma left_move_right_height (s : TextBoxState) :
    (left_move_right s).height = s.height := by
  unfold left_move_right; split <;> rfl

@[simp] lemma left_move_left_width (s : TextBoxState) :
    (left_move_left s).width = s.width := by
  unfold left_move_left; split <;> rfl

@[simp] lemma left_move_left_height (s : TextBoxState) :
    (left_move_left s).height = s.height := by
  unfold left_move_left; split <;> rfl

@[simp] lemma insertCore_width (s : TextBoxState) (ch : List Char) :
    (insertCore s ch).width = s.width := by
  unfold insertCore
  rw [right_move_right_width]
  split <;> simp

@[simp] lemma insertCore_height (s : TextBoxState) (ch : List Char) :
    (insertCore s ch).height = s.height := by
  unfold insertCore
  rw [right_move_right_height]
  split <;> simp

@[simp] lemma add_character_width (s : TextBoxState) (c : List Char) :
    (add_character s c).width = s.width := by
  unfold add_character; split_ifs <;> simp

@[simp] lemma add_character_height (s : TextBoxState) (c : List Char) :
    (add_character s c).height = s.height := by
  unfold add_character; split_ifs <;> simp

@[simp] lemma remove_character_width (s : TextBoxState) :
    (remove_character s).width = s.width := by
  unfold remove_character
  by_cases h0 : s.caret_pos = 0
  · rw [if_pos h0]
  · rw [if_neg h0]
    simp [apply_ite TextBoxState.width]

@[simp] lemma remove_character_height (s : TextBoxState) :
    (remove_character s).height = s.height := by
  unfold remove_character
  by_cases h0 : s.caret_pos = 0
  · rw [if_pos h0]
  · rw [if_neg h0]
    simp [apply_ite TextBoxState.height]

lemma length_splice (t ch : List Char) (n : ℕ) (hn : n ≤ t.length) :
    (t.take n ++ ch ++ t.drop n).length = t.length + ch.length := by
  simp only [List.length_append, List.length_take, List.length_drop]
  omega

/-- Field-level characterization of insertCore when the caret is inside the
buffer: the character is spliced at the caret, the caret advances by one,
window_left slides right exactly when the window was full (its guard
window_left ≤ len+1 then always holds is recorded explicitly), and
window_right slides right exactly when its guard held. -/
lemma insertCore_fields (s : TextBoxState) (ch : List Char)
    (hcp : s.caret_pos ≤ s.text.length) (hch : 1 ≤ ch.length) :
    insertCore s ch =
      { s with
        text := s.text.take s.caret_pos ++ ch ++ s.text.drop s.caret_pos
        caret_pos := s.caret_pos + 1
        window_left :=
          if ((s.window_right : ℤ) - s.window_left = ((s.height * s.width : ℕ) : ℤ) - 1)
              ∧ s.window_left ≤ s.text.length + ch.length
          then s.window_left + 1 else s.window_left
        window_right :=
          if s.window_right ≤ s.text.length + ch.length
          then s.window_right + 1 else s.window_right } := by
  obtain ⟨t, cp, wl, wr, w, hgt⟩ := s
  dsimp only at hcp
  have hlen := length_splice t ch cp hcp
  unfold insertCore move_caret_right right_move_right left_move_right isWindowFull
  dsimp only
  rw [hlen, if_neg (show ¬(cp + 1 > t.length + ch.length) by omega)]
  by_cases hfull : (wr : ℤ) - wl = ((hgt * w : ℕ) : ℤ) - 1
  · rw [if_pos hfull]
    by_cases hlg : wl ≤ t.length + ch.length
    · rw [if_pos hlg]
      dsimp only
      simp only [hlen]
      by_cases hrg : wr ≤ t.length + ch.length
      · rw [if_pos hrg, if_pos ⟨hfull, hlg⟩, if_pos hrg]
      · rw [if_neg hrg, if_pos ⟨hfull, hlg⟩, if_neg hrg]
    · rw [if_neg hlg]
      dsimp only
      simp only [hlen]
      have hnc : ¬(((wr : ℤ) - wl = ((hgt * w : ℕ) : ℤ) - 1)
          ∧ wl ≤ t.length + ch.length) := fun hc => hlg hc.2
      by_cases hrg : wr ≤ t.length + ch.length
      · rw [if_pos hrg, if_neg hnc, if_pos hrg]
      · rw [if_neg hrg, if_neg hnc, if_neg hrg]
  · rw [if_neg hfull]
    dsimp only
    simp only [hlen]
    have hnc : ¬(((wr : ℤ) - wl = ((hgt * w : ℕ) : ℤ) - 1)
        ∧ wl ≤ t.length + ch.length) := fun hc => hfull hc.1
    by_cases hrg : wr ≤ t.length + ch.length
    · rw [if_pos hrg, if_neg hnc, if_pos hrg]
    · rw [if_neg hrg, if_neg hnc, if_neg hrg]

lemma inv_insertCore (s : TextBoxState) (ch : List Char)
    (hw : 1 ≤ s.width) (hh : 1 ≤ s.height) (hch : ch.length = 1)
    (h : INV s) : INV (insertCore s ch) := by
  obtain ⟨h1, h2, h3, h4⟩ := h
  rw [insertCore_fields s ch h2 (by omega)]
  obtain ⟨t, cp, wl, wr, w, hgt⟩ := s
  dsimp only at *
  have hk : 0 < hgt * w := Nat.mul_pos hh hw
  unfold INV
  dsimp only
  rw [length_splice t ch cp h2]
  split_ifs <;> omega

lemma inv_add (s : TextBoxState) (c : List Char)
    (hw : 1 ≤ s.width) (hh : 1 ≤ s.height) (hc : c ≠ [])
    (h : INV s) : INV (add_character s c) := by
  unfold add_character
  split_ifs with hg hsp
  · exact h
  · exact inv_insertCore s _ hw hh rfl h
  · refine inv_insertCore s _ hw hh ?_ h
    have hc1 : 1 ≤ c.length := List.length_pos.mpr hc
    have hc2 : ¬(c.length > 1) := fun hgt1 => hg ⟨hgt1, hsp⟩
    omega

lemma inv_remove (s : TextBoxState)
    (hw : 1 ≤ s.width) (hh : 1 ≤ s.height)
    (h : INV s) : INV (remove_character s) := by
  obtain ⟨h1, h2, h3, h4⟩ := h
  by_cases h0 : s.caret_pos = 0
  · rw [remove_character, if_pos h0]; exact ⟨h1, h2, h3, h4⟩
  · rw [remove_character, if_neg h0]
    obtain ⟨t, cp, wl, wr, w, hgt⟩ := s
    dsimp only at *
    have hk : 0 < hgt * w := Nat.mul_pos hh hw
    have hlen : (t.take (cp - 1) ++ t.drop cp).length = t.length - 1 := by
      simp only [List.length_append, List.length_take, List.length_drop]
      omega
    unfold move_caret_left isShortText
    dsimp only
    simp only [hlen]
    by_cases hshort : ((t.length - 1 : ℕ) : ℤ) < ((hgt * w : ℕ) : ℤ) - 1
    · rw [if_pos hshort]
      unfold right_move_left
      dsimp only
      by_cases hwr : wr > 0
      · rw [if_pos hwr]
        dsimp only
        unfold isWindowFull
        dsimp only
        by_cases hfull : ((wr - 1 : ℕ) : ℤ) - wl = ((hgt * w : ℕ) : ℤ) - 1
        · rw [if_pos hfull]
          by_cases hwl : wl > 0
          · rw [if_pos hwl]
            simp only [left_move_left, right_move_left]
            rw [if_pos hwl]
            dsimp only
            unfold INV
            split_ifs <;> dsimp only <;> simp only [hlen] <;> omega
          · rw [if_neg hwl]
            unfold INV
            dsimp only
            simp only [hlen]
            omega
        · rw [if_neg hfull]
          unfold INV
          dsimp only
          simp only [hlen]
          omega
      · rw [if_neg hwr]
        unfold isWindowFull
        dsimp only
        by_cases hfull : ((wr : ℕ) : ℤ) - wl = ((hgt * w : ℕ) : ℤ) - 1
        · rw [if_pos hfull]
          by_cases hwl : wl > 0
          · rw [if_pos hwl]
            simp only [left_move_left, right_move_left]
            rw [if_pos hwl]
            dsimp only
            unfold INV
            split_ifs <;> dsimp only <;> simp only [hlen] <;> omega
          · rw [if_neg hwl]
            unfold INV
            dsimp only
            simp only [hlen]
            omega
        · rw [if_neg hfull]
          unfold INV
          dsimp only
          simp only [hlen]
          omega
    · rw [if_neg hshort]
      unfold isWindowFull
      dsimp only
      by_cases hfull : ((wr : ℕ) : ℤ) - wl = ((hgt * w : ℕ) : ℤ) - 1
      · rw [if_pos hfull]
        by_cases hwl : wl > 0
        · rw [if_pos hwl]
          simp only [left_move_left, right_move_left]
          rw [if_pos hwl]
          dsimp only
          unfold INV
          split_ifs <;> dsimp only <;> simp only [hlen] <;> omega
        · rw [if_neg hwl]
          unfold INV
          dsimp only
          simp only [hlen]
          omega
      · rw [if_neg hfull]
        unfold INV
        dsimp only
        simp only [hlen]
        omega

/-- Every state reachable by insert/deleteBackward calls from the initial
editing state of a well-formed TextBox (width, height ≥ 1) satisfies the
inductive invariant, and its width/height fields are the construction
parameters. -/
lemma reach_inv (width height : ℕ) (hw : 1 ≤ width) (hh : 1 ≤ height)
    (s : TextBoxState) (hs : Reach width height s) :
    s.width = width ∧ s.height = height ∧ INV s := by
  induction hs with
  | init => exact ⟨rfl, rfl, inv_init width height⟩
  | insert s c _ hc ih =>
    obtain ⟨ihw, ihh, ihinv⟩ := ih
    exact ⟨by simp [ihw], by simp [ihh],
      inv_add s c (ihw ▸ hw) (ihh ▸ hh) hc ihinv⟩
  | delete s _ ih =>
    obtain ⟨ihw, ihh, ihinv⟩ := ih
    exact ⟨by simp [ihw], by simp [ihh],
      inv_remove s (ihw ▸ hw) (ihh ▸ hh) ihinv⟩

lemma splice_unsplice (t ch : List Char) (cp : ℕ)
    (hcp : cp ≤ t.length) (hch : ch.length = 1) :
    (t.take cp ++ ch ++ t.drop cp).take cp
      ++ (t.take cp ++ ch ++ t.drop cp).drop (cp + 1) = t := by
  have h1 : (t.take cp).length = cp := by
    rw [List.length_take]; omega
  have h2 : (t.take cp ++ ch).length = cp + 1 := by
    rw [List.length_append, h1, hch]
  have htake : (t.take cp ++ (ch ++ t.drop cp)).take cp = t.take cp :=
    List.take_left' h1
  have hdrop : ((t.take cp ++ ch) ++ t.drop cp).drop (cp + 1) = t.drop cp :=
    List.drop_left' h2
  calc (t.take cp ++ ch ++ t.drop cp).take cp
        ++ (t.take cp ++ ch ++ t.drop cp).drop (cp + 1)
      = (t.take cp ++ (ch ++ t.drop cp)).take cp
        ++ ((t.take cp ++ ch) ++ t.drop cp).drop (cp + 1) := by
        simp only [List.append_assoc]
    _ = t.take cp ++ t.drop cp := by rw [htake, hdrop]
    _ = t := List.take_append_drop cp t

/-- Inserting a single character into a state satisfying the invariant and
then deleting backwards restores the state exactly. -/
lemma roundtrip_insertCore (s : TextBoxState) (ch : List Char)
    (hw : 1 ≤ s.width) (hh : 1 ≤ s.height) (hch : ch.length = 1)
    (h : INV s) : remove_character (insertCore s ch) = s := by
  obtain ⟨h1, h2, h3, h4⟩ := h
  rw [insertCore_fields s ch h2 (by omega)]
  obtain ⟨t, cp, wl, wr, w, hgt⟩ := s
  dsimp only at *
  have hk : 0 < hgt * w := Nat.mul_pos hh hw
  have hsp := splice_unsplice t ch cp h2 hch
  have hlen := length_splice t ch cp h2
  simp only [hch] at *
  by_cases hfull : (wr : ℤ) - wl = ((hgt * w : ℕ) : ℤ) - 1
  · rw [if_pos ⟨hfull, show wl ≤ t.length + 1 by omega⟩,
       if_pos (show wr ≤ t.length + 1 by omega)]
    unfold remove_character
    dsimp only
    rw [if_neg (show ¬(cp + 1 = 0) by omega)]
    unfold move_caret_left isShortText
    dsimp only
    simp only [Nat.add_sub_cancel, hsp]
    rw [if_neg (show ¬((t.length : ℤ) < ((hgt * w : ℕ) : ℤ) - 1) by omega)]
    unfold isWindowFull
    dsimp only
    rw [if_pos (show ((wr + 1 : ℕ) : ℤ) - ((wl + 1 : ℕ) : ℤ)
          = ((hgt * w : ℕ) : ℤ) - 1 by push_cast; push_cast at hfull; omega)]
    rw [if_pos (show wl + 1 > 0 by omega)]
    simp only [left_move_left, right_move_left]
    rw [if_pos (show wl + 1 > 0 by omega)]
    dsimp only
    rw [if_pos (show wr + 1 > 0 by omega)]
    simp only [Nat.add_sub_cancel]
  · have hnc : ¬((((wr : ℤ) - wl = ((hgt * w : ℕ) : ℤ) - 1))
        ∧ wl ≤ t.length + 1) := fun hc => hfull hc.1
    rw [if_neg hnc, if_pos (show wr ≤ t.length + 1 by omega)]
    unfold remove_character
    dsimp only
    rw [if_neg (show ¬(cp + 1 = 0) by omega)]
    unfold move_caret_left isShortText
    dsimp only
    simp only [Nat.add_sub_cancel, hsp]
    rw [if_pos (show (t.length : ℤ) < ((hgt * w : ℕ) : ℤ) - 1 by omega)]
    unfold right_move_left
    dsimp only
    rw [if_pos (show wr + 1 > 0 by omega)]
    unfold isWindowFull
    dsimp only
    simp only [Nat.add_sub_cancel]
    rw [if_neg hfull]

/-- C2: for every sequence of TextBox insert (add_character) and
deleteBackward (remove_character) calls starting from the initial editing
state of a well-formed TextBox (width ≥ 1, height ≥ 1), after every call
the invariant 0 ≤ windowLeft ≤ windowRight and
windowRight − windowLeft ≤ width*height − 1 holds. -/
theorem claim_C2 (width height : ℕ) (hw : 1 ≤ width) (hh : 1 ≤ height)
    (s : TextBoxState) (hs : Reach width height s) :
    0 ≤ s.window_left ∧ s.window_left ≤ s.window_right ∧
      s.window_right - s.window_left ≤ s.width * s.height - 1 := by
  obtain ⟨hwid, hhgt, h1, h2, h3, h4⟩ := reach_inv width height hw hh s hs
  refine ⟨Nat.zero_le _, by omega, ?_⟩
  rw [Nat.mul_comm s.width s.height]
  omega

/-- Witness for C2 at a concrete reachable state: a 5×2 TextBox after
inserting one character. -/
theorem witness_C2 :
    0 ≤ (add_character (initEditState 5 2) ['a']).window_left ∧
    (add_character (initEditState 5 2) ['a']).window_left ≤
      (add_character (initEditState 5 2) ['a']).window_right ∧
    (add_character (initEditState 5 2) ['a']).window_right -
        (add_character (initEditState 5 2) ['a']).window_left ≤
      (add_character (initEditState 5 2) ['a']).width *
          (add_character (initEditState 5 2) ['a']).height - 1 :=
  claim_C2 5 2 (by norm_num) (by norm_num) _
    (Reach.insert _ _ Reach.init (by decide))

/-- C3: for every TextBox editing state reachable from the initial editing
state and every single character accepted by insert, calling insert(ch)
and then deleteBackward() restores the prior
(text, caretPos, windowLeft, windowRight) tuple exactly. -/
theorem claim_C3 (width height : ℕ) (hw : 1 ≤ width) (hh : 1 ≤ height)
    (s : TextBoxState) (hs : Reach width height s)
    (c : List Char) (hc : acceptedInput c) :
    remove_character (add_character s c) = s := by
  obtain ⟨hwid, hhgt, hinv⟩ := reach_inv width height hw hh s hs
  have hw2 : 1 ≤ s.width := hwid ▸ hw
  have hh2 : 1 ≤ s.height := hhgt ▸ hh
  unfold add_character
  by_cases hsp : c.map Char.toLower = "space".data
  · rw [if_neg (fun hg => hg.2 hsp), if_pos hsp]
    exact roundtrip_insertCore s _ hw2 hh2 rfl hinv
  · rcases hc with hc1 | hc2
    · have hng : ¬(c.length > 1 ∧ c.map Char.toLower ≠ "space".data) :=
        fun hg => by omega
      rw [if_neg hng, if_neg hsp]
      exact roundtrip_insertCore s c hw2 hh2 hc1 hinv
    · exact absurd hc2 hsp

/-- Witness for C3: inserting then deleting a character on a concrete 5×2
TextBox state restores the state. -/
theorem witness_C3 :
    remove_character (add_character (initEditState 5 2) ['a'])
      = initEditState 5 2 :=
  claim_C3 5 2 (by norm_num) (by norm_num) _ Reach.init ['a'] (Or.inl rfl)

@[simp] lemma right_move_left_text (s : TextBoxState) :
    (right_move_left s).text = s.text := by
  unfold right_move_left; split <;> rfl

@[simp] lemma right_move_left_caret (s : TextBoxState) :
    (right_move_left s).caret_pos = s.caret_pos := by
  unfold right_move_left; split <;> rfl

@[simp] lemma left_move_left_text (s : TextBoxState) :
    (left_move_left s).text = s.text := by
  unfold left_move_left; split <;> rfl

@[simp] lemma left_move_left_caret (s : TextBoxState) :
    (left_move_left s).caret_pos = s.caret_pos := by
  unfold left_move_left; split <;> rfl

@[simp] lemma move_caret_left_text (s : TextBoxState) :
    (move_caret_left s).text = s.text := rfl

@[simp] lemma move_caret_left_caret (s : TextBoxState) :
    (move_caret_left s).caret_pos = s.caret_pos - 1 := rfl

/-- C4: TextBox insert (add_character): a multi-character input whose
lowercase form is not "space" is silently ignored with the state
unchanged; the token "space" is mapped to the character ' '; every
accepted character is spliced into the text at caretPos and the caret
advances by 1 (for data-model states, caretPos ≤ len); when the visible
window is already full, windowLeft slides right by 1 and windowRight
slides right by 1, so the window scrolls right and stays full. -/
theorem claim_C4 :
    (∀ (s : TextBoxState) (c : List Char),
        c.length > 1 → c.map Char.toLower ≠ "space".data →
        add_character s c = s) ∧
    (∀ s : TextBoxState, add_character s "space".data = add_character s [' ']) ∧
    (∀ (s : TextBoxState) (c : List Char), acceptedInput c →
        s.caret_pos ≤ s.text.length →
        (add_character s c).text
            = s.text.take s.caret_pos
              ++ (if c.map Char.toLower = "space".data then [' '] else c)
              ++ s.text.drop s.caret_pos ∧
        (add_character s c).caret_pos = s.caret_pos + 1) ∧
    (∀ (s : TextBoxState) (c : List Char), acceptedInput c →
        s.caret_pos ≤ s.text.length →
        s.window_left ≤ s.window_right → s.window_right ≤ s.text.length →
        isWindowFull s →
        (add_character s c).window_left = s.window_left + 1 ∧
        (add_character s c).window_right = s.window_right + 1 ∧
        isWindowFull (add_character s c)) := by
  have hmap : ("space".data.map Char.toLower = "space".data) := by decide
  have hacc : ∀ (s : TextBoxState) (c : List Char), acceptedInput c →
      add_character s c
        = insertCore s
            (if c.map Char.toLower = "space".data then [' '] else c) := by
    intro s c hc
    unfold add_character
    by_cases hsp : c.map Char.toLower = "space".data
    · rw [if_neg (fun hg => hg.2 hsp), if_pos hsp]
    · rcases hc with hc1 | hc2
      · rw [if_neg (fun hg => by omega), if_neg hsp]
      · exact absurd hc2 hsp
  have hacclen : ∀ c : List Char, acceptedInput c →
      (if c.map Char.toLower = "space".data then [' '] else c).length = 1 := by
    intro c hc
    by_cases hsp : c.map Char.toLower = "space".data
    · rw [if_pos hsp]; rfl
    · rcases hc with hc1 | hc2
      · rw [if_neg hsp]; exact hc1
      · exact absurd hc2 hsp
  refine ⟨?_, ?_, ?_, ?_⟩
  · intro s c h1 h2
    unfold add_character
    rw [if_pos ⟨h1, h2⟩]
  · intro s
    rw [hacc s _ (Or.inr hmap), hacc s [' '] (Or.inl rfl), if_pos hmap,
      if_neg (by decide)]
  · intro s c hc hcp
    rw [hacc s c hc,
      insertCore_fields s _ hcp (by rw [hacclen c hc]),
      hacclen c hc]
    exact ⟨rfl, rfl⟩
  · intro s c hc hcp hlr hrt hfull
    rw [hacc s c hc,
      insertCore_fields s _ hcp (by rw [hacclen c hc]),
      hacclen c hc]
    unfold isWindowFull at hfull ⊢
    dsimp only
    rw [if_pos ⟨hfull, by omega⟩, if_pos (by omega)]
    refine ⟨rfl, rfl, ?_⟩
    push_cast
    push_cast at hfull
    omega

/-- Witness for C4 on concrete inputs: an ignored token leaves the state
unchanged, "space" behaves as a blank, and inserting into a full 5×2
window splices, advances the caret, and slides both window edges. -/
theorem witness_C4 :
    (add_character ⟨"ab".data, 0, 0, 2, 5, 2⟩ "Shift_L".data
        = ⟨"ab".data, 0, 0, 2, 5, 2⟩) ∧
    (add_character ⟨"ab".data, 0, 0, 2, 5, 2⟩ "space".data
        = add_character ⟨"ab".data, 0, 0, 2, 5, 2⟩ [' ']) ∧
    ((add_character ⟨"abcdefghi".data, 9, 0, 9, 5, 2⟩ ['x']).text
        = "abcdefghi".data.take 9
          ++ (if (['x'].map Char.toLower = "space".data) then [' '] else ['x'])
          ++ "abcdefghi".data.drop 9 ∧
      (add_character ⟨"abcdefghi".data, 9, 0, 9, 5, 2⟩ ['x']).caret_pos
        = 9 + 1) ∧
    ((add_character ⟨"abcdefghi".data, 9, 0, 9, 5, 2⟩ ['x']).window_left
        = 0 + 1 ∧
      (add_character ⟨"abcdefghi".data, 9, 0, 9, 5, 2⟩ ['x']).window_right
        = 9 + 1 ∧
      isWindowFull (add_character ⟨"abcdefghi".data, 9, 0, 9, 5, 2⟩ ['x'])) :=
  ⟨claim_C4.1 _ _ (by decide) (by decide),
   claim_C4.2.1 _,
   claim_C4.2.2.1 _ ['x'] (Or.inl rfl) (by decide),
   claim_C4.2.2.2 _ ['x'] (Or.inl rfl) (by decide) (by decide) (by decide)
     (by decide)⟩

/-- C5: TextBox deleteBackward (remove_character): with caretPos == 0 the
call is a no-op; otherwise it removes the character before the caret and
moves the caret left by 1; on reachable states of a well-formed TextBox
it slides windowRight left by 1 (windowLeft unchanged) when the buffer is
now shorter than a full window, and otherwise, when the window is still
full and windowLeft > 0, slides both window edges left by 1. -/
theorem claim_C5 :
    (∀ s : TextBoxState, s.caret_pos = 0 → remove_character s = s) ∧
    (∀ s : TextBoxState, 0 < s.caret_pos →
        (remove_character s).text
            = s.text.take (s.caret_pos - 1) ++ s.text.drop s.caret_pos ∧
        (remove_character s).caret_pos = s.caret_pos - 1) ∧
    (∀ (width height : ℕ) (s : TextBoxState), 1 ≤ width → 1 ≤ height →
        Reach width height s → 0 < s.caret_pos →
        ((s.text.length : ℤ) - 1 < ((s.height * s.width : ℕ) : ℤ) - 1) →
        (remove_character s).window_right = s.window_right - 1 ∧
        (remove_character s).window_left = s.window_left) ∧
    (∀ (width height : ℕ) (s : TextBoxState), 1 ≤ width → 1 ≤ height →
        Reach width height s → 0 < s.caret_pos →
        ¬((s.text.length : ℤ) - 1 < ((s.height * s.width : ℕ) : ℤ) - 1) →
        isWindowFull s → 0 < s.window_left →
        (remove_character s).window_left = s.window_left - 1 ∧
        (remove_character s).window_right = s.window_right - 1) := by
  refine ⟨?_, ?_, ?_, ?_⟩
  · intro s h0
    unfold remove_character
    rw [if_pos h0]
  · intro s h0
    unfold remove_character
    rw [if_neg (by omega : ¬(s.caret_pos = 0))]
    constructor
    · simp [apply_ite TextBoxState.text]
    · simp [apply_ite TextBoxState.caret_pos]
  · intro width height s hw hh hs h0 hshort
    obtain ⟨hwid, hhgt, h1, h2, h3, h4⟩ := reach_inv width height hw hh s hs
    obtain ⟨t, cp, wl, wr, w, hgt⟩ := s
    dsimp only at *
    have hk : 0 < hgt * w := Nat.mul_pos (by omega) (by omega)
    have hwl0 : wl = 0 := by
      rcases Nat.eq_zero_or_pos wl with h | h
      · exact h
      · have := h4 h; omega
    have hlen : (t.take (cp - 1) ++ t.drop cp).length = t.length - 1 := by
      simp only [List.length_append, List.length_take, List.length_drop]; omega
    unfold remove_character
    dsimp only
    rw [if_neg (by omega : ¬(cp = 0))]
    unfold move_caret_left isShortText
    dsimp only
    simp only [hlen]
    rw [if_pos (show ((t.length - 1 : ℕ) : ℤ) < ((hgt * w : ℕ) : ℤ) - 1
        by omega)]
    unfold right_move_left
    dsimp only
    rw [if_pos (show wr > 0 by omega)]
    unfold isWindowFull
    dsimp only
    rw [if_neg (show ¬(((wr - 1 : ℕ) : ℤ) - ((wl : ℕ) : ℤ)
        = ((hgt * w : ℕ) : ℤ) - 1) by omega)]
    exact ⟨rfl, rfl⟩
  · intro width height s hw hh hs h0 hnshort hfull hwl
    obtain ⟨hwid, hhgt, h1, h2, h3, h4⟩ := reach_inv width height hw hh s hs
    obtain ⟨t, cp, wl, wr, w, hgt⟩ := s
    unfold isWindowFull at hfull
    dsimp only at *
    have hk : 0 < hgt * w := Nat.mul_pos (by omega) (by omega)
    have hlen : (t.take (cp - 1) ++ t.drop cp).length = t.length - 1 := by
      simp only [List.length_append, List.length_take, List.length_drop]; omega
    unfold remove_character
    dsimp only
    rw [if_neg (by omega : ¬(cp = 0))]
    unfold move_caret_left isShortText
    dsimp only
    simp only [hlen]
    rw [if_neg (show ¬(((t.length - 1 : ℕ) : ℤ) < ((hgt * w : ℕ) : ℤ) - 1)
        by omega)]
    unfold isWindowFull
    dsimp only
    rw [if_pos hfull, if_pos (show wl > 0 by omega)]
    simp only [left_move_left, right_move_left]
    rw [if_pos (show wl > 0 by omega)]
    dsimp only
    rw [if_pos (show wr > 0 by omega)]
    exact ⟨rfl, rfl⟩

/-- Witness for C5 on concrete states: deleting at caret 0 is a no-op;
deleting the only character of a 5×2 box removes it, moves the caret
left and slides windowRight back; deleting in a full 1×1 window with
windowLeft > 0 slides both edges left. -/
theorem witness_C5 :
    (remove_character (initEditState 5 2) = initEditState 5 2) ∧
    ((remove_character ⟨['a'], 1, 0, 1, 5, 2⟩).text
        = (['a'] : List Char).take 0 ++ (['a'] : List Char).drop 1 ∧
      (remove_character ⟨['a'], 1, 0, 1, 5, 2⟩).caret_pos = 1 - 1) ∧
    ((remove_character (add_character (initEditState 5 2) ['a'])).window_right
        = (add_character (initEditState 5 2) ['a']).window_right - 1 ∧
      (remove_character (add_character (initEditState 5 2) ['a'])).window_left
        = (add_character (initEditState 5 2) ['a']).window_left) ∧
    ((remove_character
        (add_character (add_character (initEditState 1 1) ['a']) ['b'])).window_left
        = (add_character (add_character (initEditState 1 1) ['a']) ['b']).window_left
          - 1 ∧
      (remove_character
        (add_character (add_character (initEditState 1 1) ['a']) ['b'])).window_right
        = (add_character (add_character (initEditState 1 1) ['a']) ['b']).window_right
          - 1) :=
  ⟨claim_C5.1 _ rfl,
   claim_C5.2.1 ⟨['a'], 1, 0, 1, 5, 2⟩ (by decide),
   claim_C5.2.2.1 5 2 _ (by norm_num) (by norm_num)
     (Reach.insert _ _ Reach.init (by decide)) (by decide) (by decide),
   claim_C5.2.2.2 1 1 _ (by norm_num) (by norm_num)
     (Reach.insert _ _ (Reach.insert _ _ Reach.init (by decide)) (by decide))
     (by decide) (by decide) (by decide) (by decide)⟩

lemma go_mod (w : ℕ) (t : List Char) : ∀ i j, i % w = j % w →
    width_set_text_go w i t = width_set_text_go w j t := by
  induction t with
  | nil => intro i j _; rfl
  | cons c rest ih =>
    intro i j h
    have h2 : (i + 1) % w = (j + 1) % w := by
      rw [Nat.add_mod i 1 w, Nat.add_mod j 1 w, h]
    unfold width_set_text_go
    rw [h2, ih (i + 1) (j + 1) h2]

lemma go_nil (w i : ℕ) : width_set_text_go w i [] = [] := rfl

lemma go_cons (w i : ℕ) (c : Char) (rest : List Char) :
    width_set_text_go w i (c :: rest) =
      if (i + 1) % w = 0 then c :: '\n' :: width_set_text_go w (i + 1) rest
      else c :: width_set_text_go w (i + 1) rest := rfl

lemma go_eq_chunks (w : ℕ) (hw : 1 ≤ w) : ∀ (t : List Char) (k i : ℕ),
    1 ≤ k → k ≤ w → i % w = w - k →
    width_set_text_go w i t =
      if t.length < k then t
      else t.take k ++ '\n' :: width_set_text_go w 0 (t.drop k) := by
  intro t
  induction t with
  | nil =>
    intro k i hk1 _ _
    rw [if_pos (by simp; omega)]
    rfl
  | cons c rest ih =>
    intro k i hk1 hkw hi
    obtain ⟨k0, rfl⟩ : ∃ k0, k = k0 + 1 := ⟨k - 1, by omega⟩
    rw [go_cons]
    by_cases hk : k0 = 0
    · subst hk
      have hmod : (i + 1) % w = 0 := by
        rw [Nat.add_mod, hi]
        rcases Nat.lt_or_ge 1 w with h2 | h2
        · rw [Nat.mod_eq_of_lt h2, show w - 1 + 1 = w by omega, Nat.mod_self]
        · have hw1 : w = 1 := by omega
          subst hw1
          rfl
      rw [if_pos hmod, if_neg (by simp)]
      rw [go_mod w rest (i + 1) 0 (by rw [hmod, Nat.zero_mod])]
      simp
    · have hmod : (i + 1) % w = w - k0 := by
        rw [Nat.add_mod, hi]
        have hw2 : 2 ≤ w := by omega
        rw [Nat.mod_eq_of_lt (show 1 < w by omega)]
        rw [Nat.mod_eq_of_lt (show w - (k0 + 1) + 1 < w by omega)]
        omega
      rw [if_neg (by rw [hmod]; omega)]
      rw [ih k0 (i + 1) (by omega) (by omega) hmod]
      by_cases hlen : rest.length < k0
      · rw [if_pos hlen, if_pos (by simp; omega)]
      · rw [if_neg hlen, if_neg (by simp; omega)]
        rw [List.take_succ_cons, List.drop_succ_cons]
        rfl


lemma rstrip_no_newline (t : List Char) (h : '\n' ∉ t) :
    rstrip_newlines t = t := by
  unfold rstrip_newlines
  have hd : t.reverse.dropWhile (fun c => c == '\n') = t.reverse := by
    cases hr : t.reverse with
    | nil => rfl
    | cons c rest =>
      have hc : c ∈ t := by
        rw [← List.mem_reverse, hr]
        exact List.mem_cons_self c rest
      have hne : ¬(c = '\n') := fun he => h (he ▸ hc)
      rw [List.dropWhile_cons, if_neg (by simpa using hne)]
  rw [hd, List.reverse_reverse]

lemma rstrip_append_newline (a : List Char) :
    rstrip_newlines (a ++ ['\n']) = rstrip_newlines a := by
  unfold rstrip_newlines
  rw [List.reverse_append]
  rw [show (['\n'] : List Char).reverse ++ a.reverse = '\n' :: a.reverse
    from rfl]
  rw [List.dropWhile_cons, if_pos (by simp)]

lemma rstrip_append (a b : List Char) (hb : rstrip_newlines b ≠ []) :
    rstrip_newlines (a ++ b) = a ++ rstrip_newlines b := by
  unfold rstrip_newlines at *
  rw [List.reverse_append, List.dropWhile_append]
  have hne : ¬(b.reverse.dropWhile (fun c => c == '\n')).isEmpty := by
    intro hemp
    rw [List.isEmpty_iff] at hemp
    rw [hemp] at hb
    exact hb rfl
  rw [if_neg hne, List.reverse_append, List.reverse_reverse]

lemma chunksSpec_ne_nil (w : ℕ) (t : List Char) (hw : w ≠ 0) (ht : t ≠ []) :
    chunksSpec w t ≠ [] := by
  rw [chunksSpec, dif_neg (by push_neg; exact ⟨hw, ht⟩)]
  simp

lemma joinLines_cons (l : List Char) (ls : List (List Char)) (h : ls ≠ []) :
    joinLines (l :: ls) = l ++ '\n' :: joinLines ls := by
  cases ls with
  | nil => exact absurd rfl h
  | cons l2 ls2 => rfl

lemma wrapSpec_ne_nil (w : ℕ) (t : List Char) (hw : w ≠ 0) (ht : t ≠ []) :
    wrapSpec w t ≠ [] := by
  unfold wrapSpec
  rw [chunksSpec, dif_neg (by push_neg; exact ⟨hw, ht⟩)]
  have htw : t.take w ≠ [] := by
    intro hemp
    rw [List.take_eq_nil_iff] at hemp
    rcases hemp with h | h <;> first | exact hw h | exact ht h
  cases hcs : chunksSpec w (t.drop w) with
  | nil => exact htw
  | cons c cs =>
    rw [joinLines_cons _ _ (by simp)]
    simp

/-- TextBox2D.width_set_text computes exactly the spec-side re-wrapping
(chunks of width characters joined by line breaks) on newline-free
input, for width ≥ 1. -/
lemma wst_eq_wrap (w : ℕ) (hw : 1 ≤ w) : ∀ (n : ℕ) (t : List Char),
    t.length ≤ n → '\n' ∉ t →
    rstrip_newlines (width_set_text_go w 0 t) = wrapSpec w t := by
  intro n
  induction n with
  | zero =>
    intro t ht _
    have ht0 : t = [] := by
      cases t with
      | nil => rfl
      | cons c cs => simp at ht
    subst ht0
    rw [show width_set_text_go w 0 [] = [] from rfl]
    rw [show rstrip_newlines [] = [] from rfl]
    rw [wrapSpec, chunksSpec, dif_pos (Or.inr rfl)]
    rfl
  | succ n ih =>
    intro t ht hnl
    by_cases ht0 : t = []
    · subst ht0
      rw [show width_set_text_go w 0 [] = [] from rfl]
      rw [show rstrip_newlines [] = [] from rfl]
      rw [wrapSpec, chunksSpec, dif_pos (Or.inr rfl)]
      rfl
    · rw [go_eq_chunks w hw t w 0 (by omega) (le_refl w)
        (by rw [Nat.zero_mod]; omega)]
      by_cases hlen : t.length < w
      · rw [if_pos hlen, rstrip_no_newline t hnl]
        rw [wrapSpec, chunksSpec, dif_neg (by push_neg; exact ⟨by omega, ht0⟩)]
        rw [List.take_of_length_le (by omega), List.drop_eq_nil_of_le (by omega)]
        rw [chunksSpec, dif_pos (Or.inr rfl)]
        rfl
      · rw [if_neg hlen]
        have htnl : '\n' ∉ t.take w := fun hm => hnl (List.mem_of_mem_take hm)
        have hdnl : '\n' ∉ t.drop w := fun hm => hnl (List.mem_of_mem_drop hm)
        by_cases hd0 : t.drop w = []
        · rw [hd0]
          rw [show width_set_text_go w 0 [] = [] from rfl]
          rw [show t.take w ++ '\n' :: ([] : List Char) = t.take w ++ ['\n']
            from rfl]
          rw [rstrip_append_newline, rstrip_no_newline _ htnl]
          rw [wrapSpec, chunksSpec, dif_neg (by push_neg; exact ⟨by omega, ht0⟩)]
          rw [hd0, chunksSpec, dif_pos (Or.inr rfl)]
          rfl
        · have hlend : (t.drop w).length ≤ n := by
            simp only [List.length_drop]
            omega
          have ihd := ih (t.drop w) hlend hdnl
          have hwne : rstrip_newlines (width_set_text_go w 0 (t.drop w)) ≠ [] := by
            rw [ihd]
            exact wrapSpec_ne_nil w (t.drop w) (by omega) hd0
          rw [List.append_cons, rstrip_append _ _ hwne, ihd]
          conv_rhs => rw [wrapSpec]
          rw [chunksSpec, dif_neg (by push_neg; exact ⟨by omega, ht0⟩)]
          rw [joinLines_cons _ _ (chunksSpec_ne_nil w (t.drop w) (by omega) hd0)]
          rw [← List.append_cons]
          rfl

/-- Counterexample to C9 as stated: with an empty text buffer but showCaret
true (the editing default — edit_mode calls render_text() right after
clearing the buffer), the rendered string is the bare caret marker, not
the "Enter Text" placeholder (neither raw nor re-wrapped): the source
tests the windowed text for emptiness, not the buffer. -/
theorem counterexample_C9 :
    (⟨[], 0, 0, 0, 5, 2⟩ : TextBoxState).text = [] ∧
    render_text ⟨[], 0, 0, 0, 5, 2⟩ true = ['_'] ∧
    render_text ⟨[], 0, 0, 0, 5, 2⟩ true ≠ "Enter Text".data ∧
    render_text ⟨[], 0, 0, 0, 5, 2⟩ true
      ≠ width_set_text ⟨[], 0, 0, 0, 5, 2⟩ "Enter Text".data := by
  refine ⟨rfl, ?_, ?_, ?_⟩ <;> decide

/-- C9 (amended): for every state with width ≥ 1 and a newline-free buffer,
render_text(showCaret) pushes the visible substring
text[windowLeft..windowRight] (with the caret marker "_" inserted at
caretPos when showCaret), re-wrapped by inserting a line break after
every width characters; the fixed placeholder (itself re-wrapped) is
rendered whenever that visible substring — not the buffer — is empty. -/
theorem claim_C9 (s : TextBoxState) (b : Bool)
    (hw : 1 ≤ s.width) (hnl : '\n' ∉ s.text) :
    render_text s b =
      (if visibleSpec s b = [] then wrapSpec s.width "Enter Text".data
       else wrapSpec s.width (visibleSpec s b)) := by
  have hvnl : '\n' ∉ visibleSpec s b := by
    intro hmem
    unfold visibleSpec at hmem
    have h1 := List.mem_of_mem_take hmem
    have h2 := List.mem_of_mem_drop h1
    cases b with
    | false => exact hnl (by simpa using h2)
    | true =>
      simp only [if_true] at h2
      simp only [List.mem_append, List.mem_cons] at h2
      rcases h2 with h | h | h
      · exact hnl (List.mem_of_mem_take h)
      · exact absurd h (by decide)
      · exact hnl (List.mem_of_mem_drop h)
  unfold render_text
  rw [show showable_text s b = visibleSpec s b from rfl]
  dsimp only
  by_cases hv : visibleSpec s b = []
  · rw [if_pos hv, if_pos hv]
    unfold width_set_text
    exact wst_eq_wrap s.width hw ("Enter Text".data.length) _ (le_refl _)
      (by decide)
  · rw [if_neg hv, if_neg hv]
    unfold width_set_text
    exact wst_eq_wrap s.width hw ((visibleSpec s b).length) _ (le_refl _) hvnl

/-- Witness for C9 at a concrete state: the empty 5×2 box, rendered with
and without the caret. -/
theorem witness_C9 :
    (render_text ⟨[], 0, 0, 0, 5, 2⟩ true =
      if visibleSpec ⟨[], 0, 0, 0, 5, 2⟩ true = []
      then wrapSpec (⟨[], 0, 0, 0, 5, 2⟩ : TextBoxState).width "Enter Text".data
      else wrapSpec (⟨[], 0, 0, 0, 5, 2⟩ : TextBoxState).width
        (visibleSpec ⟨[], 0, 0, 0, 5, 2⟩ true)) ∧
    (render_text ⟨[], 0, 0, 0, 5, 2⟩ false =
      if visibleSpec ⟨[], 0, 0, 0, 5, 2⟩ false = []
      then wrapSpec (⟨[], 0, 0, 0, 5, 2⟩ : TextBoxState).width "Enter Text".data
      else wrapSpec (⟨[], 0, 0, 0, 5, 2⟩ : TextBoxState).width
        (visibleSpec ⟨[], 0, 0, 0, 5, 2⟩ false)) :=
  ⟨claim_C9 _ true (by norm_num) (by simp),
   claim_C9 _ false (by norm_num) (by simp)⟩

/-- C6: LineSlider percentage is the clamped affine map of the handle
x-position clamp((x − leftX)/(rightX − leftX)*100, 0, 100); for every
length > 0 the endpoints report 0 and 100, and the concrete slider from
(350,20) to (550,20) reports 0%, 100% and 50% at x = 350, 550, 450. -/
theorem claim_C6 :
    (∀ centerX length x : ℚ,
        calculate_percentage (mkLineSlider2DText centerX length) x
          = clampSpec ((x - (centerX - length / 2))
              / ((centerX + length / 2) - (centerX - length / 2)) * 100)
              0 100) ∧
    (∀ centerX length : ℚ, 0 < length →
        calculate_percentage (mkLineSlider2DText centerX length)
            (centerX - length / 2) = 0 ∧
        calculate_percentage (mkLineSlider2DText centerX length)
            (centerX + length / 2) = 100) ∧
    (calculate_percentage (mkLineSlider2DText 450 200) 350 = 0 ∧
     calculate_percentage (mkLineSlider2DText 450 200) 550 = 100 ∧
     calculate_percentage (mkLineSlider2DText 450 200) 450 = 50) := by
  have key : ∀ centerX length x : ℚ,
      calculate_percentage (mkLineSlider2DText centerX length) x
        = clampSpec ((x - (centerX - length / 2))
            / ((centerX + length / 2) - (centerX - length / 2)) * 100)
            0 100 := by
    intro cx len x
    unfold calculate_percentage mkLineSlider2DText clampSpec
    dsimp only
    rw [show (x - (cx - len / 2)) * 100 / ((cx + len / 2) - (cx - len / 2))
        = (x - (cx - len / 2)) / ((cx + len / 2) - (cx - len / 2)) * 100
      from by ring]
    set p := (x - (cx - len / 2)) / ((cx + len / 2) - (cx - len / 2)) * 100
      with hp
    by_cases h1 : p < 0
    · rw [if_pos h1, if_neg (by norm_num)]
      rw [min_eq_right (by linarith), max_eq_left (by linarith)]
    · by_cases h2 : p > 100
      · rw [if_neg h1, if_pos h2]
        rw [min_eq_left (by linarith), max_eq_right (by norm_num)]
      · rw [if_neg h1, if_neg h2]
        rw [min_eq_right (by linarith), max_eq_right (by linarith)]
  refine ⟨key, ?_, ?_⟩
  · intro cx len hlen
    constructor
    · rw [key]
      unfold clampSpec
      rw [show (cx - len / 2 - (cx - len / 2))
          / ((cx + len / 2) - (cx - len / 2)) * 100 = 0 from by
        rw [sub_self, zero_div, zero_mul]]
      rw [min_eq_right (by norm_num), max_eq_right (by norm_num)]
    · rw [key]
      unfold clampSpec
      rw [show (cx + len / 2 - (cx - len / 2))
          / ((cx + len / 2) - (cx - len / 2)) * 100 = 100 from by
        rw [div_self (by intro h; apply absurd hlen; rw [show len
          = (cx + len / 2) - (cx - len / 2) from by ring, h]; norm_num),
          one_mul]]
      rw [min_eq_left (by norm_num), max_eq_right (by norm_num)]
  · refine ⟨?_, ?_, ?_⟩ <;> norm_num [calculate_percentage, mkLineSlider2DText]

/-- Witness for C6: the endpoint facts applied to the concrete slider with
center (450,20) and length 200. -/
theorem witness_C6 :
    calculate_percentage (mkLineSlider2DText 450 200) (450 - 200 / 2) = 0 ∧
    calculate_percentage (mkLineSlider2DText 450 200) (450 + 200 / 2) = 100 :=
  claim_C6.2.1 450 200 (by norm_num)

/-- C7: whenever get_poi produces a handle position (r being the value of
math.sqrt(dx²+dy²), nonzero exactly when the pointer differs from the
center), that position lies at Euclidean distance outer_disk_radius from
the outer disk center. -/
theorem claim_C7 (cx cy radius px py r : ℝ)
    (hrad : 0 ≤ radius) (hr0 : 0 ≤ r)
    (hr : r * r = (px - cx) * (px - cx) + (py - cy) * (py - cy)) :
    ∀ q : ℝ × ℝ, get_poi cx cy radius px py r = some q →
      Real.sqrt ((q.1 - cx) ^ 2 + (q.2 - cy) ^ 2) = radius := by
  intro q hq
  unfold get_poi at hq
  by_cases hrz : r = 0
  · rw [if_pos hrz] at hq
    cases hq
  · rw [if_neg hrz] at hq
    dsimp only at hq
    have huv : (radius * (px - cx) / r) ^ 2 + (radius * (py - cy) / r) ^ 2
        = radius ^ 2 := by
      rw [div_pow, div_pow, div_add_div_same]
      rw [mul_pow, mul_pow, ← mul_add]
      rw [show (px - cx) ^ 2 + (py - cy) ^ 2 = r ^ 2 from by
        rw [pow_two, pow_two, pow_two, hr]]
      rw [mul_div_assoc, div_self (pow_ne_zero 2 hrz), mul_one]
    have hkey : ∀ a b : ℝ, (a - cx) ^ 2 + (b - cy) ^ 2 = radius ^ 2 →
        Real.sqrt ((a - cx) ^ 2 + (b - cy) ^ 2) = radius := by
      intro a b h
      rw [h]
      exact Real.sqrt_sq hrad
    by_cases hxx : cx + radius * (px - cx) / r = cx - radius * (px - cx) / r
    · have hzero : radius * (px - cx) / r = 0 := by linarith
      rw [if_pos hxx] at hq
      dsimp only at hq
      split_ifs at hq <;>
      · simp only [Option.some.injEq] at hq
        subst hq
        apply hkey
        rw [hzero]
        ring
    · have hdx : px - cx ≠ 0 := by
        intro h
        exact hxx (by rw [h]; ring)
      rw [if_neg hxx] at hq
      dsimp only at hq
      have e1 : cx + radius * (px - cx) / r - cx = radius * (px - cx) / r := by
        ring
      have e2 : cy + (py - cy) / (px - cx) * (cx + radius * (px - cx) / r - cx)
          - cy = radius * (py - cy) / r := by
        field_simp
        ring
      have e3 : cx - radius * (px - cx) / r - cx = -(radius * (px - cx) / r) := by
        ring
      have e4 : cy + (py - cy) / (px - cx) * (cx - radius * (px - cx) / r - cx)
          - cy = -(radius * (py - cy) / r) := by
        field_simp
        ring
      split_ifs at hq with hd
      · simp only [Option.some.injEq] at hq
        subst hq
        apply hkey
        dsimp only
        rw [e2, e1, huv]
      · simp only [Option.some.injEq] at hq
        subst hq
        apply hkey
        dsimp only
        rw [e4, e3, neg_pow, neg_pow]
        simpa using huv

/-- Witness for C7 at a concrete pointer: center (0,0), ring radius 42,
pointer (3,4) (so sqrt(dx²+dy²) = 5); the snapped handle is
(126/5, 168/5), at distance 42 from the center. -/
theorem witness_C7 :
    Real.sqrt ((((126 : ℝ) / 5) - 0) ^ 2 + (((168 : ℝ) / 5) - 0) ^ 2) = 42 := by
  have hq : get_poi (0 : ℝ) 0 42 3 4 5 = some (126 / 5, 168 / 5) := by
    norm_num [get_poi]
  simpa using
    claim_C7 0 0 42 3 4 5 (by norm_num) (by norm_num) (by norm_num)
      (126 / 5, 168 / 5) hq

/-- C10: get_poi is total exactly on pointers different from the outer disk
center: with r the value of math.sqrt(dx²+dy²), the division-by-zero
branch (r = 0, where Python raises ZeroDivisionError) is taken if and
only if the coordinates equal the center. -/
theorem claim_C10 (cx cy radius px py r : ℝ) (hr0 : 0 ≤ r)
    (hr : r * r = (px - cx) * (px - cx) + (py - cy) * (py - cy)) :
    (get_poi cx cy radius px py r).isSome ↔ ¬(px = cx ∧ py = cy) := by
  have h1 : (get_poi cx cy radius px py r).isSome ↔ r ≠ 0 := by
    unfold get_poi
    by_cases hrz : r = 0
    · rw [if_pos hrz]
      simp [hrz]
    · rw [if_neg hrz]
      dsimp only
      split_ifs <;> simp [hrz]
  rw [h1]
  constructor
  · intro hrz hc
    apply hrz
    obtain ⟨h2, h3⟩ := hc
    have : r * r = 0 := by
      rw [hr, h2, h3]
      ring
    exact mul_self_eq_zero.mp this
  · intro hne hrz
    rw [hrz, mul_zero] at hr
    have hdx : px - cx = 0 := by nlinarith [sq_nonneg (px - cx), sq_nonneg (py - cy)]
    have hdy : py - cy = 0 := by nlinarith [sq_nonneg (px - cx), sq_nonneg (py - cy)]
    exact hne ⟨by linarith, by linarith⟩

/-- Witness for C10 at the concrete pointer (3,4) about center (0,0). -/
theorem witness_C10 :
    (get_poi (0 : ℝ) 0 42 3 4 5).isSome ↔ ¬((3 : ℝ) = 0 ∧ (4 : ℝ) = 0) :=
  claim_C10 0 0 42 3 4 5 (by norm_num) (by norm_num)

/-- C8: get_angle returns atan2(dy,dx) in degrees (the raw angle
Complex.arg ⟨dx,dy⟩ · 180/π) normalized into [0,360) by adding 360
exactly when the raw angle is negative, and for every angle in [0,360)
the percentage readout string equals floor(angle/360*100) zero-padded to
two digits followed by "%". -/
theorem claim_C8 :
    (∀ cx cy px py : ℝ,
        (Complex.arg ⟨px - cx, py - cy⟩ * (180 / Real.pi) < 0 →
          normalizeAngle (Complex.arg ⟨px - cx, py - cy⟩ * (180 / Real.pi))
            = Complex.arg ⟨px - cx, py - cy⟩ * (180 / Real.pi) + 360) ∧
        (0 ≤ Complex.arg ⟨px - cx, py - cy⟩ * (180 / Real.pi) →
          normalizeAngle (Complex.arg ⟨px - cx, py - cy⟩ * (180 / Real.pi))
            = Complex.arg ⟨px - cx, py - cy⟩ * (180 / Real.pi)) ∧
        0 ≤ normalizeAngle (Complex.arg ⟨px - cx, py - cy⟩ * (180 / Real.pi)) ∧
        normalizeAngle (Complex.arg ⟨px - cx, py - cy⟩ * (180 / Real.pi))
          < 360) ∧
    (∀ angle : ℝ, 0 ≤ angle → angle < 360 →
        disk_calculate_percentage angle = diskPercentageSpec angle) := by
  constructor
  · intro cx cy px py
    have hpi := Real.pi_pos
    set z : ℂ := ⟨px - cx, py - cy⟩
    have h1 : Complex.arg z ≤ Real.pi := Complex.arg_le_pi z
    have h2 : -Real.pi < Complex.arg z := Complex.neg_pi_lt_arg z
    have hr1 : Complex.arg z * (180 / Real.pi) ≤ 180 := by
      calc Complex.arg z * (180 / Real.pi)
          ≤ Real.pi * (180 / Real.pi) :=
            mul_le_mul_of_nonneg_right h1 (by positivity)
        _ = 180 := by field_simp
    have hr2 : -180 < Complex.arg z * (180 / Real.pi) := by
      calc (-180 : ℝ) = -Real.pi * (180 / Real.pi) := by field_simp; ring
        _ < Complex.arg z * (180 / Real.pi) :=
            mul_lt_mul_of_pos_right h2 (by positivity)
    unfold normalizeAngle
    split_ifs with h
    · exact ⟨fun _ => rfl, fun hc => absurd h (not_lt.mpr hc),
        by linarith, by linarith⟩
    · exact ⟨fun hc => absurd hc h, fun _ => rfl,
        by linarith [not_lt.mp h], by linarith⟩
  · intro a h0 h360
    have hnn : 0 ≤ a / 360 * 100 := by positivity
    have hlt : a / 360 * 100 < 100 := by
      have hq : a / 360 < 1 := (div_lt_one (by norm_num)).mpr h360
      nlinarith
    have hfl0 : 0 ≤ ⌊a / 360 * 100⌋ := Int.floor_nonneg.mpr hnn
    have hfl99 : ⌊a / 360 * 100⌋ < 100 := by
      have := Int.floor_le (a / 360 * 100)
      have h100 : ⌊a / 360 * 100⌋ < (100 : ℤ) := by
        rw [Int.floor_lt]
        push_cast
        exact hlt
      exact h100
    have hlen : ∀ m : ℕ, m < 100 →
        (((toString ((m : ℕ) : ℤ)).length = 1) ↔ ((m : ℤ) < 10)) := by decide
    unfold disk_calculate_percentage diskPercentageSpec pyTrunc
    dsimp only
    rw [if_pos hnn]
    obtain ⟨m, hm⟩ : ∃ m : ℕ, ⌊a / 360 * 100⌋ = (m : ℤ) :=
      ⟨(⌊a / 360 * 100⌋).toNat, by omega⟩
    rw [hm]
    have hm100 : m < 100 := by omega
    by_cases h10 : (m : ℤ) < 10
    · rw [if_pos ((hlen m hm100).mpr h10), if_pos h10]
    · rw [if_neg (fun hl => h10 ((hlen m hm100).mp hl)), if_neg h10]

/-- Witness for C8: the raw angle of the pointer (1,0) about (0,0), and the
readout at the concrete angle 90 degrees. -/
theorem witness_C8 :
    ((Complex.arg ⟨(1 : ℝ) - 0, (0 : ℝ) - 0⟩ * (180 / Real.pi) < 0 →
        normalizeAngle (Complex.arg ⟨(1 : ℝ) - 0, (0 : ℝ) - 0⟩ * (180 / Real.pi))
          = Complex.arg ⟨(1 : ℝ) - 0, (0 : ℝ) - 0⟩ * (180 / Real.pi) + 360) ∧
      (0 ≤ Complex.arg ⟨(1 : ℝ) - 0, (0 : ℝ) - 0⟩ * (180 / Real.pi) →
        normalizeAngle (Complex.arg ⟨(1 : ℝ) - 0, (0 : ℝ) - 0⟩ * (180 / Real.pi))
          = Complex.arg ⟨(1 : ℝ) - 0, (0 : ℝ) - 0⟩ * (180 / Real.pi)) ∧
      0 ≤ normalizeAngle (Complex.arg ⟨(1 : ℝ) - 0, (0 : ℝ) - 0⟩ * (180 / Real.pi)) ∧
      normalizeAngle (Complex.arg ⟨(1 : ℝ) - 0, (0 : ℝ) - 0⟩ * (180 / Real.pi))
        < 360) ∧
    disk_calculate_percentage (90 : ℝ) = diskPercentageSpec (90 : ℝ) :=
  ⟨claim_C8.1 0 0 1 0, claim_C8.2 90 (by norm_num) (by norm_num)⟩

/-- Counterexample to C1 as stated: a press over a tracked 2D widget (pick
path empty, actor2d hit) does invoke that widget's actor — but the
camera controller is invoked as well, because on_left_button_pressed
calls trackball OnLeftButtonDown unconditionally at its end.  Widget
interaction and camera manipulation are therefore not mutually
exclusive. -/
theorem counterexample_C1 :
    (on_left_button_pressed [⟨1⟩] none ⟨none, some 1, none⟩).1
      = [Invocation.invokeActor 1, Invocation.cameraLeftDown] ∧
    Invocation.cameraLeftDown
      ∈ (on_left_button_pressed [⟨1⟩] none ⟨none, some 1, none⟩).1 ∧
    (on_left_button_pressed [⟨1⟩] none ⟨none, some 1, none⟩).2 = some ⟨1⟩ := by
  refine ⟨rfl, ?_, rfl⟩
  decide

/-- C1 (amended): the camera controller is invoked on every press event;
when the pick resolves to a tracked widget's actor (2D overlay with no
3D path, or 3D prop with no path), exactly that widget's actor receives
the event in addition (and the owning widget is recorded via actor
identity lookup); when the pick resolves to nothing, only the camera
controller handles the event. -/
theorem claim_C1 (uiList : List UIItem) (chosen : Option UIItem)
    (pick : PickResult) :
    Invocation.cameraLeftDown ∈ (on_left_button_pressed uiList chosen pick).1 ∧
    (∀ a, pick.path = none → pick.actor2d = some a →
      (on_left_button_pressed uiList chosen pick).1
        = [Invocation.invokeActor a, Invocation.cameraLeftDown] ∧
      (on_left_button_pressed uiList chosen pick).2 = get_ui_item uiList a) ∧
    (∀ a, pick.path = none → pick.actor2d = none → pick.prop3d = some a →
      (on_left_button_pressed uiList chosen pick).1
        = [Invocation.invokeActor a, Invocation.cameraLeftDown] ∧
      (on_left_button_pressed uiList chosen pick).2 = get_ui_item uiList a) ∧
    (pick.path = none → pick.actor2d = none → pick.prop3d = none →
      (on_left_button_pressed uiList chosen pick).1
        = [Invocation.cameraLeftDown]) := by
  obtain ⟨pp, pa, p3⟩ := pick
  refine ⟨?_, ?_, ?_, ?_⟩
  · cases pp <;> cases pa <;> cases p3 <;> simp [on_left_button_pressed]
  · intro a h1 h2
    dsimp only at h1 h2
    subst h1
    subst h2
    exact ⟨rfl, rfl⟩
  · intro a h1 h2 h3
    dsimp only at h1 h2 h3
    subst h1
    subst h2
    subst h3
    exact ⟨rfl, rfl⟩
  · intro h1 h2 h3
    dsimp only at h1 h2 h3
    subst h1
    subst h2
    subst h3
    rfl

/-- Witness for C1 at a concrete press: one tracked widget with actor id 1,
a pick hitting its 2D actor with no 3D path, and an empty pick. -/
theorem witness_C1 :
    (Invocation.cameraLeftDown
        ∈ (on_left_button_pressed [⟨1⟩] none ⟨none, some 1, none⟩).1 ∧
      (on_left_button_pressed [⟨1⟩] none ⟨none, some 1, none⟩).1
        = [Invocation.invokeActor 1, Invocation.cameraLeftDown] ∧
      (on_left_button_pressed [⟨1⟩] none ⟨none, some 1, none⟩).2
        = get_ui_item [⟨1⟩] 1) ∧
    (on_left_button_pressed [⟨1⟩] none ⟨none, none, none⟩).1
      = [Invocation.cameraLeftDown] :=
  ⟨⟨(claim_C1 [⟨1⟩] none ⟨none, some 1, none⟩).1,
    (claim_C1 [⟨1⟩] none ⟨none, some 1, none⟩).2.1 1 rfl rfl⟩,
   (claim_C1 [⟨1⟩] none ⟨none, none, none⟩).2.2.2 rfl rfl rfl⟩

end DipyGui
